import Mathlib

/-!
Shallow embedding of the book/note service from `backend/book/api.go` of the
reading-tracker repository, together with proofs about the claims of its
specification.

Modelling conventions:
* `primitive.ObjectID` is abstracted to a natural number; `primitive.NilObjectID`
  is `0`; `primitive.ObjectIDFromHex` succeeds exactly on 24-character hex strings.
* The two Mongo collections are lists of typed documents (`Store`), updated
  exactly as the driver calls in the source do: `UpdateOne` touches the first
  matching document, `DeleteOne` removes the first matching document,
  `DeleteMany` removes all matching documents, `FindOne`+`Decode` leaves the
  zero value when nothing matches.
* The edit handlers operate on raw documents (`Doc`, an association list of
  field name to value), mirroring their untyped `map[string]interface{}` /
  `bson.D` code.
* Driver-level failures (network, etc.) are injected as `Option StoreErr`
  parameters, one per store call a handler makes; `none` means the call
  succeeds at the driver level.
* `gin`'s `ShouldBindJSON` with its error ignored is modelled by an
  `Option` argument: `none` (binding failed) leaves the zero value of the
  bound variable, exactly as the Go code does.
* Each handler also returns the list of store accesses it performed, in order,
  so that claims about "no store access" are expressible.
-/

abbrev ObjectId := Nat

def nilObjectID : ObjectId := 0

abbrev StoreErr := Nat

def hexDigitVal (c : Char) : Option Nat :=
  if '0' ≤ c ∧ c ≤ '9' then some (c.toNat - '0'.toNat)
  else if 'a' ≤ c ∧ c ≤ 'f' then some (c.toNat - 'a'.toNat + 10)
  else if 'A' ≤ c ∧ c ≤ 'F' then some (c.toNat - 'A'.toNat + 10)
  else none

/-- `primitive.ObjectIDFromHex`: succeeds exactly on 24-character hexadecimal
strings, producing the decoded identifier value. -/
def ObjectIDFromHex (s : String) : Option ObjectId :=
  if s.length = 24 then
    s.data.foldl
      (fun acc c =>
        match acc, hexDigitVal c with
        | some a, some v => some (a * 16 + v)
        | _, _ => none)
      (some 0)
  else none

/-- `models.Book` (fields as in the Go struct). -/
structure Book where
  id : ObjectId
  title : String
  author : String
  status : Int
  startTime : Nat
  endTime : Nat
  notes : List ObjectId
  description : String
  deriving DecidableEq

/-- `models.Note` (fields as in the Go struct; `CreateTime` is set in `AddNote`). -/
structure Note where
  id : ObjectId
  bookID : ObjectId
  content : String
  replyTo : ObjectId
  createTime : Nat
  deriving DecidableEq

/-- The zero value of `models.Book` (what `var book m.Book` gives). -/
def zeroBook : Book := ⟨0, "", "", 0, 0, 0, [], ""⟩

/-- The zero value of `models.Note` (what `var note m.Note` gives). -/
def zeroNote : Note := ⟨0, 0, "", 0, 0⟩

/-- The two collections (`book`, `note`) held by `Service`. -/
structure Store where
  books : List Book
  notes : List Note
  deriving DecidableEq

/-- Values stored in the untyped `map[string]interface{}` field maps. -/
inductive GoVal where
  | str : String → GoVal
  | oid : ObjectId → GoVal
  | int : Int → GoVal
  | nil : GoVal
  deriving DecidableEq

/-- A raw document / field map: association list of field name to value. -/
abbrev Doc := List (String × GoVal)

/-- Go map read: value for the key, zero value (`nil` interface) when absent. -/
def mapGet (m : Doc) (k : String) : GoVal :=
  match m with
  | [] => GoVal.nil
  | kv :: rest => if kv.1 = k then kv.2 else mapGet rest k

/-- Go map write: replace the entry for the key, or add it when absent. -/
def mapSet (m : Doc) (k : String) (v : GoVal) : Doc :=
  match m with
  | [] => [(k, v)]
  | kv :: rest => if kv.1 = k then (k, v) :: rest else kv :: mapSet rest k v

/-- Modelled from the spec: the repository helper `strIdToPrimitive` (declared
outside `api.go`, used by `EditBook` and `EditNote`): the `id` value is decoded
via the identifier codec before use as the match key, failing when the value is
not a canonical identifier string (the commented-out block in `EditBook` shows
the same string assertion plus `ObjectIDFromHex`). -/
def strIdToPrimitive (v : GoVal) : Option ObjectId :=
  match v with
  | GoVal.str s => ObjectIDFromHex s
  | _ => none

/-- The update-field filter loop of `EditBook`/`EditNote`: keep exactly the
entries whose value differs from the empty-string interface value. -/
def buildUpdateFields (fields : Doc) : Doc :=
  fields.filter (fun kv => decide (kv.2 ≠ GoVal.str ""))

/-- Mongo `$set` on a raw document: set each given field in order. -/
def applySet (d : Doc) (upd : Doc) : Doc :=
  upd.foldl (fun acc kv => mapSet acc kv.1 kv.2) d

/-- The partial-update translation both edit handlers perform: overwrite the
`id` entry with the decoded identifier, then drop empty-string-valued fields. -/
def translateUpdate (fields : Doc) (oid : ObjectId) : Doc :=
  buildUpdateFields (mapSet fields "id" (GoVal.oid oid))

/-- Mongo `FindOneAndUpdate` (default options): update the first document whose
`id` field matches, returning the document as it was BEFORE the update
(the driver's default `ReturnDocument` is `Before`); `none` when no match
(`mongo.ErrNoDocuments`). -/
def findOneAndUpdateDoc (docs : List Doc) (oid : ObjectId) (upd : Doc) :
    List Doc × Option Doc :=
  match docs with
  | [] => ([], none)
  | d :: rest =>
    if mapGet d "id" = GoVal.oid oid then (applySet d upd :: rest, some d)
    else
      let r := findOneAndUpdateDoc rest oid upd
      (d :: r.1, r.2)

/-- Mongo `UpdateOne` with a `$set`, on raw documents: update the first document
whose `id` field matches; the second component is `ModifiedCount` (1 when the
matched document actually changed, 0 otherwise, including the no-match case). -/
def updateOneDoc (docs : List Doc) (oid : ObjectId) (upd : Doc) :
    List Doc × Int :=
  match docs with
  | [] => ([], 0)
  | d :: rest =>
    if mapGet d "id" = GoVal.oid oid then
      let d' := applySet d upd
      (d' :: rest, if d' = d then 0 else 1)
    else
      let r := updateOneDoc rest oid upd
      (d :: r.1, r.2)

/-- Errors surfaced through `util.ResponseError`. -/
inductive Err where
  | store : StoreErr → Err
  | invalidId : Err
  | notExist : Err
  | noMatch : Err
  | detachFailed : Err
  deriving DecidableEq

/-- Success payloads surfaced through `util.ResponseSuccess`. -/
inductive Payload where
  | oidP : ObjectId → Payload
  | count : Int → Payload
  | bookP : Book → Payload
  | noteP : Note → Payload
  | notesP : List Note → Payload
  | docP : Doc → Payload
  deriving DecidableEq

/-- One store call, for recording which accesses a handler performed. -/
inductive Access where
  | findBookA
  | findNoteA
  | insertBookA
  | insertNoteA
  | updateBookA
  | updateNoteA
  | deleteBookA
  | deleteNoteA
  | findOneAndUpdateA
  deriving DecidableEq

/-- `FindOne` on the book collection with filter `{id: oid}`. -/
def findBook (st : Store) (oid : ObjectId) : Option Book :=
  st.books.find? (fun b => decide (b.id = oid))

/-- `FindOne` on the note collection with filter `{id: oid}`. -/
def findNote (st : Store) (oid : ObjectId) : Option Note :=
  st.notes.find? (fun n => decide (n.id = oid))

/-- `UpdateOne({id: bid}, {$push: {notes: nid}})`: append `nid` to the notes
sequence of the first book whose id matches; no match leaves the list as is
(the driver reports success with `MatchedCount` 0, not an error). -/
def pushNoteId (bks : List Book) (bid nid : ObjectId) : List Book :=
  match bks with
  | [] => []
  | b :: rest =>
    if b.id = bid then { b with notes := b.notes ++ [nid] } :: rest
    else b :: pushNoteId rest bid nid

/-- `UpdateOne({id: bid}, {$pull: {notes: nid}})`: remove every occurrence of
`nid` from the notes sequence of the first book whose id matches. -/
def pullNoteId (bks : List Book) (bid nid : ObjectId) : List Book :=
  match bks with
  | [] => []
  | b :: rest =>
    if b.id = bid then { b with notes := b.notes.filter (fun x => decide (x ≠ nid)) } :: rest
    else b :: pullNoteId rest bid nid

/-- `DeleteOne({id: nid})` on the note collection: remove the first matching
note; the second component is `DeletedCount`. -/
def deleteFirstNote (ns : List Note) (nid : ObjectId) : List Note × Int :=
  match ns with
  | [] => ([], 0)
  | n :: rest =>
    if n.id = nid then (rest, 1)
    else
      let r := deleteFirstNote rest nid
      (n :: r.1, r.2)

/-- `DeleteOne({id: oid})` on the book collection: remove the first matching
book; the second component is `DeletedCount`. -/
def deleteFirstBook (bks : List Book) (oid : ObjectId) : List Book × Int :=
  match bks with
  | [] => ([], 0)
  | b :: rest =>
    if b.id = oid then (rest, 1)
    else
      let r := deleteFirstBook rest oid
      (b :: r.1, r.2)

/-- `DeleteMany({bookid: oid})` on the note collection: remove every note whose
`bookID` matches. -/
def deleteManyNotes (ns : List Note) (oid : ObjectId) : List Note :=
  ns.filter (fun n => decide (n.bookID ≠ oid))

/-- Modelled from the spec: the repository helper `getBook(oid, s)` (declared
outside `api.go`, used by `ListNoteByBook`): loads the book via `FindOne` on the
book collection, decoding into the zero value when nothing matches. -/
def getBook (oid : ObjectId) (st : Store) : Book :=
  (findBook st oid).getD zeroBook

/-- Modelled from the spec: the repository helper `deleteNote(bookID, noteID, s)`
(declared outside `api.go`, used by `AddNote`'s compensation and by
`DeleteNote`'s detach step): removes the note identifier from the given book's
`notes` sequence via `UpdateOne` with `$pull`, reporting `false` exactly when
the store call itself fails (a zero-match update is a driver-level success). -/
def deleteNote (bookID noteID : ObjectId) (pullErr : Option StoreErr) (st : Store) :
    Store × Bool :=
  match pullErr with
  | some _ => (st, false)
  | none => ({ st with books := pullNoteId st.books bookID noteID }, true)

/-- `GetBook` handler: decode the path parameter, `FindOne`, report `notExist`
when the decoded book has the nil id. -/
def GetBook (idStr : String) (st : Store) : List Access × Except Err Payload :=
  match ObjectIDFromHex idStr with
  | none => ([], Except.error Err.invalidId)
  | some oid =>
    let book := (findBook st oid).getD zeroBook
    if book.id = nilObjectID then ([Access.findBookA], Except.error Err.notExist)
    else ([Access.findBookA], Except.ok (Payload.bookP book))

/-- `GetNote` handler: decode the path parameter, `FindOne`, report `notExist`
when the decoded note has the nil id. -/
def GetNote (idStr : String) (st : Store) : List Access × Except Err Payload :=
  match ObjectIDFromHex idStr with
  | none => ([], Except.error Err.invalidId)
  | some oid =>
    let note := (findNote st oid).getD zeroNote
    if note.id = nilObjectID then ([Access.findNoteA], Except.error Err.notExist)
    else ([Access.findNoteA], Except.ok (Payload.noteP note))

/-- `ListNoteByBook` handler: decode the `bookid` query parameter, load the
book, then resolve each referenced note identifier in order, keeping the zero
note as a placeholder when a referenced note is missing. -/
def ListNoteByBook (idStr : String) (st : Store) : List Access × Except Err Payload :=
  match ObjectIDFromHex idStr with
  | none => ([], Except.error Err.invalidId)
  | some oid =>
    let book := getBook oid st
    if book.id = nilObjectID then ([Access.findBookA], Except.error Err.notExist)
    else
      let ns := book.notes.map (fun nid => (findNote st nid).getD zeroNote)
      (Access.findBookA :: book.notes.map (fun _ => Access.findNoteA),
        Except.ok (Payload.notesP ns))

/-- `AddBook` handler: bind the body (zero book on bind failure), overwrite the
id with a fresh one and force `notes` empty, insert. -/
def AddBook (bindRes : Option Book) (freshId : ObjectId) (insErr : Option StoreErr)
    (st : Store) : Store × List Access × Except Err Payload :=
  let bound := bindRes.getD zeroBook
  let book := { bound with id := freshId, notes := [] }
  match insErr with
  | some e => (st, [Access.insertBookA], Except.error (Err.store e))
  | none =>
    ({ st with books := st.books ++ [book] }, [Access.insertBookA],
      Except.ok (Payload.oidP book.id))

/-- `DeleteBook` handler: decode the form id, bulk-delete the book's notes,
then delete the book, responding with the count of deleted books. -/
def DeleteBook (idStr : String) (delManyErr delOneErr : Option StoreErr)
    (st : Store) : Store × List Access × Except Err Payload :=
  match ObjectIDFromHex idStr with
  | none => (st, [], Except.error Err.invalidId)
  | some oid =>
    match delManyErr with
    | some e => (st, [Access.deleteNoteA], Except.error (Err.store e))
    | none =>
      let st1 := { st with notes := deleteManyNotes st.notes oid }
      match delOneErr with
      | some e => (st1, [Access.deleteNoteA, Access.deleteBookA], Except.error (Err.store e))
      | none =>
        let r := deleteFirstBook st1.books oid
        ({ st1 with books := r.1 }, [Access.deleteNoteA, Access.deleteBookA],
          Except.ok (Payload.count r.2))

/-- `EditBook` handler: bind the field map (empty on bind failure), decode the
`id` entry, filter out empty-string fields, `FindOneAndUpdate` on the book
collection, responding with the document the driver returned (the pre-update
document, per the driver default) or `noMatch` on `mongo.ErrNoDocuments`. -/
def EditBook (bindRes : Option Doc) (updErr : Option StoreErr)
    (books : List Doc) : List Doc × List Access × Except Err Payload :=
  let fields := bindRes.getD []
  match strIdToPrimitive (mapGet fields "id") with
  | none => (books, [], Except.error Err.invalidId)
  | some oid =>
    let upd := translateUpdate fields oid
    match updErr with
    | some e => (books, [Access.findOneAndUpdateA], Except.error (Err.store e))
    | none =>
      match findOneAndUpdateDoc books oid upd with
      | (books1, some old) =>
        (books1, [Access.findOneAndUpdateA], Except.ok (Payload.docP old))
      | (_, none) => (books, [Access.findOneAndUpdateA], Except.error Err.noMatch)

/-- `EditNote` handler: bind the field map (empty on bind failure), decode the
`id` entry, filter out empty-string fields, `UpdateOne` on the note collection,
responding with the modification count (success with 0 when nothing matched). -/
def EditNote (bindRes : Option Doc) (updErr : Option StoreErr)
    (notes : List Doc) : List Doc × List Access × Except Err Payload :=
  let fields := bindRes.getD []
  match strIdToPrimitive (mapGet fields "id") with
  | none => (notes, [], Except.error Err.invalidId)
  | some oid =>
    let upd := translateUpdate fields oid
    match updErr with
    | some e => (notes, [Access.updateNoteA], Except.error (Err.store e))
    | none =>
      let r := updateOneDoc notes oid upd
      (r.1, [Access.updateNoteA], Except.ok (Payload.count r.2))

/-- `AddNote` handler: bind the body (zero note on bind failure), mint a fresh
id and creation time, push the id onto the target book's `notes` (step 1),
insert the note (step 2), and on insert failure attempt the compensating pull
(step 3), always reporting the original insert error. -/
def AddNote (bindRes : Option Note) (freshId : ObjectId) (now : Nat)
    (pushErr insertErr pullErr : Option StoreErr) (st : Store) :
    Store × List Access × Except Err Payload :=
  let bound := bindRes.getD zeroNote
  let note := { bound with id := freshId, createTime := now }
  match pushErr with
  | some e => (st, [Access.updateBookA], Except.error (Err.store e))
  | none =>
    let st1 := { st with books := pushNoteId st.books note.bookID note.id }
    match insertErr with
    | some e =>
      let r := deleteNote note.bookID note.id pullErr st1
      (r.1, [Access.updateBookA, Access.insertNoteA, Access.updateBookA],
        Except.error (Err.store e))
    | none =>
      ({ st1 with notes := st1.notes ++ [note] },
        [Access.updateBookA, Access.insertNoteA], Except.ok (Payload.oidP note.id))

/-- `DeleteNote` handler: bind the body (zero note on bind failure), fetch the
note to discover its `bookID` (zero note when missing), detach the id from that
book via the `deleteNote` helper, and only on detach success delete the note
document, responding with the count of deleted notes. -/
def DeleteNote (bindRes : Option Note) (pullErr delErr : Option StoreErr)
    (st : Store) : Store × List Access × Except Err Payload :=
  let tempNote := bindRes.getD zeroNote
  let note := (findNote st tempNote.id).getD zeroNote
  let bookID := note.bookID
  let r := deleteNote bookID tempNote.id pullErr st
  if r.2 then
    match delErr with
    | some e =>
      (r.1, [Access.findNoteA, Access.updateBookA, Access.deleteNoteA],
        Except.error (Err.store e))
    | none =>
      let d := deleteFirstNote r.1.notes tempNote.id
      ({ r.1 with notes := d.1 },
        [Access.findNoteA, Access.updateBookA, Access.deleteNoteA],
        Except.ok (Payload.count d.2))
  else (r.1, [Access.findNoteA, Access.updateBookA], Except.error Err.detachFailed)

/-- The referential-integrity invariant of the spec: every identifier in a
book's `notes` sequence references an existing note whose `bookID` is that
book's id. -/
def RefIntegrity (st : Store) : Prop :=
  ∀ b ∈ st.books, ∀ nid ∈ b.notes, ∃ n ∈ st.notes, n.id = nid ∧ n.bookID = b.id

/-- Well-formedness: book ids are pairwise distinct. -/
def Store.booksWf (st : Store) : Prop := (st.books.map Book.id).Nodup

/-- Well-formedness: note ids are pairwise distinct. -/
def Store.notesWf (st : Store) : Prop := (st.notes.map Note.id).Nodup

instance (st : Store) : Decidable (RefIntegrity st) := by
  unfold RefIntegrity; infer_instance

instance (st : Store) : Decidable st.booksWf := by
  unfold Store.booksWf; infer_instance

instance (st : Store) : Decidable st.notesWf := by
  unfold Store.notesWf; infer_instance

/-! Lemmas about the raw-document operations. -/

theorem mapGet_mapSet_self (m : Doc) (k : String) (v : GoVal) :
    mapGet (mapSet m k v) k = v := by
  induction m with
  | nil => simp [mapSet, mapGet]
  | cons kv rest ih =>
    by_cases h : kv.1 = k
    · simp [mapSet, mapGet, h]
    · simp [mapSet, mapGet, h, ih]

theorem mapGet_mapSet_ne (m : Doc) (k k' : String) (v : GoVal) (h : k' ≠ k) :
    mapGet (mapSet m k v) k' = mapGet m k' := by
  induction m with
  | nil =>
    simp only [mapSet, mapGet]
    rw [if_neg (fun e => h e.symm)]
  | cons kv rest ih =>
    by_cases hk : kv.1 = k
    · simp only [mapSet, if_pos hk, mapGet]
      rw [if_neg (fun e => h e.symm), if_neg (fun e => h (e.symm.trans hk))]
    · simp only [mapSet, if_neg hk, mapGet, ih]

theorem mem_mapSet_of_ne (m : Doc) (k k' : String) (v v' : GoVal)
    (hm : (k', v') ∈ m) (hne : k' ≠ k) : (k', v') ∈ mapSet m k v := by
  induction m with
  | nil => cases hm
  | cons kv rest ih =>
    by_cases hk : kv.1 = k
    · simp only [mapSet, if_pos hk]
      rcases List.mem_cons.mp hm with h | h
      · exfalso; apply hne; rw [← h] at hk; exact hk
      · exact List.mem_cons_of_mem _ h
    · simp only [mapSet, if_neg hk]
      rcases List.mem_cons.mp hm with h | h
      · exact h ▸ List.mem_cons_self _ _
      · exact List.mem_cons_of_mem _ (ih h)

theorem mem_of_mem_mapSet_ne (m : Doc) (k k' : String) (v v' : GoVal)
    (hm : (k', v') ∈ mapSet m k v) (hne : k' ≠ k) : (k', v') ∈ m := by
  induction m with
  | nil =>
    simp [mapSet] at hm
    exact absurd hm.1 hne
  | cons kv rest ih =>
    by_cases hk : kv.1 = k
    · simp only [mapSet, if_pos hk] at hm
      rcases List.mem_cons.mp hm with h | h
      · exact absurd (congrArg Prod.fst h) hne
      · exact List.mem_cons_of_mem _ h
    · simp only [mapSet, if_neg hk] at hm
      rcases List.mem_cons.mp hm with h | h
      · exact h ▸ List.mem_cons_self _ _
      · exact List.mem_cons_of_mem _ (ih h)

theorem keys_mapSet (m : Doc) (k : String) (v : GoVal) :
    (mapSet m k v).map Prod.fst =
      if k ∈ m.map Prod.fst then m.map Prod.fst else m.map Prod.fst ++ [k] := by
  induction m with
  | nil => simp [mapSet]
  | cons kv rest ih =>
    by_cases hk : kv.1 = k
    · simp [mapSet, hk]
    · simp only [mapSet, if_neg hk, List.map_cons, ih]
      by_cases hmem : k ∈ rest.map Prod.fst
      · simp [hmem, Ne.symm hk]
      · simp [hmem, Ne.symm hk]

theorem nodupKeys_mapSet (m : Doc) (k : String) (v : GoVal)
    (h : (m.map Prod.fst).Nodup) : ((mapSet m k v).map Prod.fst).Nodup := by
  rw [keys_mapSet]
  by_cases hmem : k ∈ m.map Prod.fst
  · simpa [hmem] using h
  · simp only [if_neg hmem]
    simpa [List.nodup_append, hmem] using h

theorem applySet_get_of_not_mem_keys (d : Doc) (upd : Doc) (k : String)
    (h : k ∉ upd.map Prod.fst) : mapGet (applySet d upd) k = mapGet d k := by
  induction upd generalizing d with
  | nil => simp [applySet]
  | cons kv rest ih =>
    simp only [List.map_cons, List.mem_cons] at h
    push_neg at h
    show mapGet (applySet (mapSet d kv.1 kv.2) rest) k = mapGet d k
    rw [ih (mapSet d kv.1 kv.2) h.2, mapGet_mapSet_ne d kv.1 k kv.2 h.1]

theorem applySet_get_of_mem (d : Doc) (upd : Doc) (k : String) (v : GoVal)
    (hnd : (upd.map Prod.fst).Nodup) (hm : (k, v) ∈ upd) :
    mapGet (applySet d upd) k = v := by
  induction upd generalizing d with
  | nil => cases hm
  | cons kv rest ih =>
    simp only [List.map_cons, List.nodup_cons] at hnd
    rcases List.mem_cons.mp hm with h | h
    · subst h
      show mapGet (applySet (mapSet d k v) rest) k = v
      rw [applySet_get_of_not_mem_keys _ _ _ hnd.1, mapGet_mapSet_self]
    · exact ih (mapSet d kv.1 kv.2) hnd.2 h

theorem nodup_keys_unique_val (m : Doc) (k : String) (a b : GoVal)
    (hnd : (m.map Prod.fst).Nodup) (ha : (k, a) ∈ m) (hb : (k, b) ∈ m) : a = b := by
  induction m with
  | nil => cases ha
  | cons kv rest ih =>
    simp only [List.map_cons, List.nodup_cons] at hnd
    rcases List.mem_cons.mp ha with h1 | h1 <;> rcases List.mem_cons.mp hb with h2 | h2
    · rw [← h1] at h2; exact (congrArg Prod.snd h2).symm
    · exfalso
      apply hnd.1
      have hk : (k : String) ∈ rest.map Prod.fst := List.mem_map.mpr ⟨(k, b), h2, rfl⟩
      rw [← h1]
      exact hk
    · exfalso
      apply hnd.1
      have hk : (k : String) ∈ rest.map Prod.fst := List.mem_map.mpr ⟨(k, a), h1, rfl⟩
      rw [← h2]
      exact hk
    · exact ih hnd.2 h1 h2

theorem findOneAndUpdateDoc_of_no_match (docs : List Doc) (oid : ObjectId) (upd : Doc)
    (h : ∀ d ∈ docs, mapGet d "id" ≠ GoVal.oid oid) :
    findOneAndUpdateDoc docs oid upd = (docs, none) := by
  induction docs with
  | nil => rfl
  | cons d rest ih =>
    simp only [findOneAndUpdateDoc, if_neg (h d (List.mem_cons_self _ _))]
    rw [ih (fun x hx => h x (List.mem_cons_of_mem _ hx))]

theorem updateOneDoc_of_no_match (docs : List Doc) (oid : ObjectId) (upd : Doc)
    (h : ∀ d ∈ docs, mapGet d "id" ≠ GoVal.oid oid) :
    updateOneDoc docs oid upd = (docs, 0) := by
  induction docs with
  | nil => rfl
  | cons d rest ih =>
    simp only [updateOneDoc, if_neg (h d (List.mem_cons_self _ _))]
    rw [ih (fun x hx => h x (List.mem_cons_of_mem _ hx))]

/-! Lemmas about the collection operations. -/

theorem pushNoteId_of_no_match (bks : List Book) (bid nid : ObjectId)
    (h : ∀ b ∈ bks, b.id ≠ bid) : pushNoteId bks bid nid = bks := by
  induction bks with
  | nil => rfl
  | cons b rest ih =>
    simp only [pushNoteId, if_neg (h b (List.mem_cons_self _ _))]
    rw [ih (fun x hx => h x (List.mem_cons_of_mem _ hx))]

theorem mem_pushNoteId (bks : List Book) (bid nid : ObjectId) (b' : Book)
    (h : b' ∈ pushNoteId bks bid nid) :
    b' ∈ bks ∨ ∃ b ∈ bks, b.id = bid ∧ b' = { b with notes := b.notes ++ [nid] } := by
  induction bks with
  | nil => cases h
  | cons b rest ih =>
    by_cases hb : b.id = bid
    · simp only [pushNoteId, if_pos hb] at h
      rcases List.mem_cons.mp h with h1 | h1
      · exact Or.inr ⟨b, List.mem_cons_self _ _, hb, h1⟩
      · exact Or.inl (List.mem_cons_of_mem _ h1)
    · simp only [pushNoteId, if_neg hb] at h
      rcases List.mem_cons.mp h with h1 | h1
      · exact Or.inl (h1 ▸ List.mem_cons_self _ _)
      · rcases ih h1 with h2 | ⟨x, hx, hxid, hxe⟩
        · exact Or.inl (List.mem_cons_of_mem _ h2)
        · exact Or.inr ⟨x, List.mem_cons_of_mem _ hx, hxid, hxe⟩

theorem mem_pullNoteId (bks : List Book) (bid nid : ObjectId) (b' : Book)
    (h : b' ∈ pullNoteId bks bid nid) :
    b' ∈ bks ∨ ∃ b ∈ bks, b.id = bid ∧
      b' = { b with notes := b.notes.filter (fun x => decide (x ≠ nid)) } := by
  induction bks with
  | nil => cases h
  | cons b rest ih =>
    by_cases hb : b.id = bid
    · simp only [pullNoteId, if_pos hb] at h
      rcases List.mem_cons.mp h with h1 | h1
      · exact Or.inr ⟨b, List.mem_cons_self _ _, hb, h1⟩
      · exact Or.inl (List.mem_cons_of_mem _ h1)
    · simp only [pullNoteId, if_neg hb] at h
      rcases List.mem_cons.mp h with h1 | h1
      · exact Or.inl (h1 ▸ List.mem_cons_self _ _)
      · rcases ih h1 with h2 | ⟨x, hx, hxid, hxe⟩
        · exact Or.inl (List.mem_cons_of_mem _ h2)
        · exact Or.inr ⟨x, List.mem_cons_of_mem _ hx, hxid, hxe⟩

theorem pull_push_cancel (bks : List Book) (bid nid : ObjectId)
    (h : ∀ b ∈ bks, nid ∉ b.notes) :
    pullNoteId (pushNoteId bks bid nid) bid nid = bks := by
  induction bks with
  | nil => rfl
  | cons b rest ih =>
    by_cases hb : b.id = bid
    · simp only [pushNoteId, if_pos hb, pullNoteId, if_pos hb]
      congr 1
      have hfil : (b.notes ++ [nid]).filter (fun x => decide (x ≠ nid)) = b.notes := by
        rw [List.filter_append]
        have h1 : b.notes.filter (fun x => decide (x ≠ nid)) = b.notes :=
          List.filter_eq_self.mpr (fun x hx => by
            simp only [decide_eq_true_eq]
            intro he
            exact h b (List.mem_cons_self _ _) (he ▸ hx))
        have h2 : ([nid] : List ObjectId).filter (fun x => decide (x ≠ nid)) = [] := by simp
        rw [h1, h2, List.append_nil]
      rw [hfil]
    · simp only [pushNoteId, if_neg hb, pullNoteId, if_neg hb]
      rw [ih (fun x hx => h x (List.mem_cons_of_mem _ hx))]

theorem find?_pushNoteId (bks : List Book) (bid nid : ObjectId) (b : Book)
    (h : bks.find? (fun x => decide (x.id = bid)) = some b) :
    (pushNoteId bks bid nid).find? (fun x => decide (x.id = bid)) =
      some { b with notes := b.notes ++ [nid] } := by
  induction bks with
  | nil => simp [List.find?] at h
  | cons x rest ih =>
    by_cases hx : x.id = bid
    · rw [List.find?_cons_of_pos _ (by simpa using hx)] at h
      cases h
      simp only [pushNoteId, if_pos hx]
      exact List.find?_cons_of_pos _ (by simpa using hx)
    · rw [List.find?_cons_of_neg _ (by simpa using hx)] at h
      simp only [pushNoteId, if_neg hx]
      rw [List.find?_cons_of_neg _ (by simpa using hx)]
      exact ih h

theorem mem_deleteFirstNote_of_ne (ns : List Note) (nid : ObjectId) (n : Note)
    (hn : n ∈ ns) (hne : n.id ≠ nid) : n ∈ (deleteFirstNote ns nid).1 := by
  induction ns with
  | nil => cases hn
  | cons x rest ih =>
    by_cases hx : x.id = nid
    · simp only [deleteFirstNote, if_pos hx]
      rcases List.mem_cons.mp hn with h1 | h1
      · exact absurd (h1 ▸ hx) hne
      · exact h1
    · simp only [deleteFirstNote, if_neg hx]
      rcases List.mem_cons.mp hn with h1 | h1
      · exact h1 ▸ List.mem_cons_self _ _
      · exact List.mem_cons_of_mem _ (ih h1)

theorem deleteFirstNote_of_no_match (ns : List Note) (nid : ObjectId)
    (h : ∀ n ∈ ns, n.id ≠ nid) : deleteFirstNote ns nid = (ns, 0) := by
  induction ns with
  | nil => rfl
  | cons n rest ih =>
    simp only [deleteFirstNote, if_neg (h n (List.mem_cons_self _ _))]
    rw [ih (fun x hx => h x (List.mem_cons_of_mem _ hx))]

theorem mem_of_mem_deleteFirstBook (bks : List Book) (oid : ObjectId) (b : Book)
    (h : b ∈ (deleteFirstBook bks oid).1) : b ∈ bks := by
  induction bks with
  | nil => cases h
  | cons x rest ih =>
    by_cases hx : x.id = oid
    · simp only [deleteFirstBook, if_pos hx] at h
      exact List.mem_cons_of_mem _ h
    · simp only [deleteFirstBook, if_neg hx] at h
      rcases List.mem_cons.mp h with h1 | h1
      · exact h1 ▸ List.mem_cons_self _ _
      · exact List.mem_cons_of_mem _ (ih h1)

theorem deleteFirstBook_id_ne (bks : List Book) (oid : ObjectId) (b' : Book)
    (hnd : (bks.map Book.id).Nodup) (h : b' ∈ (deleteFirstBook bks oid).1) :
    b'.id ≠ oid := by
  induction bks with
  | nil => cases h
  | cons b rest ih =>
    simp only [List.map_cons, List.nodup_cons] at hnd
    by_cases hb : b.id = oid
    · simp only [deleteFirstBook, if_pos hb] at h
      intro he
      apply hnd.1
      rw [hb, ← he]
      exact List.mem_map.mpr ⟨b', h, rfl⟩
    · simp only [deleteFirstBook, if_neg hb] at h
      rcases List.mem_cons.mp h with h1 | h1
      · exact h1 ▸ hb
      · exact ih hnd.2 h1

theorem pullNoteId_not_mem (bks : List Book) (bid nid : ObjectId) (b' : Book)
    (hnd : (bks.map Book.id).Nodup) (h : b' ∈ pullNoteId bks bid nid)
    (hid : b'.id = bid) : nid ∉ b'.notes := by
  induction bks with
  | nil => cases h
  | cons b rest ih =>
    simp only [List.map_cons, List.nodup_cons] at hnd
    by_cases hb : b.id = bid
    · simp only [pullNoteId, if_pos hb] at h
      rcases List.mem_cons.mp h with h1 | h1
      · subst h1
        simp only [List.mem_filter, decide_eq_true_eq]
        intro hc
        exact hc.2 rfl
      · exfalso
        apply hnd.1
        rw [hb, ← hid]
        exact List.mem_map.mpr ⟨b', h1, rfl⟩
    · simp only [pullNoteId, if_neg hb] at h
      rcases List.mem_cons.mp h with h1 | h1
      · exact absurd (h1 ▸ hid) hb
      · exact ih hnd.2 h1

theorem note_unique (ns : List Note) (n m : Note)
    (hnd : (ns.map Note.id).Nodup) (hn : n ∈ ns) (hm : m ∈ ns) (h : n.id = m.id) :
    n = m := by
  induction ns with
  | nil => cases hn
  | cons x rest ih =>
    simp only [List.map_cons, List.nodup_cons] at hnd
    rcases List.mem_cons.mp hn with h1 | h1 <;> rcases List.mem_cons.mp hm with h2 | h2
    · rw [h1, h2]
    · exfalso
      apply hnd.1
      rw [← h1, h]
      exact List.mem_map.mpr ⟨m, h2, rfl⟩
    · exfalso
      apply hnd.1
      rw [← h2, ← h]
      exact List.mem_map.mpr ⟨n, h1, rfl⟩
    · exact ih hnd.2 h1 h2

theorem deleteFirstBook_count (bks : List Book) (oid : ObjectId) :
    (deleteFirstBook bks oid).2 =
      if bks.any (fun b => decide (b.id = oid)) then 1 else 0 := by
  induction bks with
  | nil => rfl
  | cons b rest ih =>
    by_cases hb : b.id = oid
    · simp [deleteFirstBook, hb]
    · simp only [deleteFirstBook, if_neg hb, List.any_cons]
      rw [ih]
      simp [hb]

theorem find?_append_left_none {α : Type} (p : α → Bool) (l1 l2 : List α)
    (h : ∀ x ∈ l1, ¬p x = true) : (l1 ++ l2).find? p = l2.find? p := by
  induction l1 with
  | nil => rfl
  | cons x rest ih =>
    rw [List.cons_append, List.find?_cons_of_neg _ (h x (List.mem_cons_self _ _))]
    exact ih (fun y hy => h y (List.mem_cons_of_mem _ hy))

/-! Preservation of the referential-integrity invariant. -/

theorem refIntegrity_push_insert (st : Store) (bound : Note) (freshId : ObjectId)
    (now : Nat) (hInv : RefIntegrity st) :
    RefIntegrity ⟨pushNoteId st.books bound.bookID freshId,
      st.notes ++ [{ bound with id := freshId, createTime := now }]⟩ := by
  intro b' hb' nid hnid
  rcases mem_pushNoteId st.books bound.bookID freshId b' hb' with hb | ⟨b, hbmem, hbid, hbeq⟩
  · obtain ⟨n, hnmem, hnid', hnbid⟩ := hInv b' hb nid hnid
    exact ⟨n, List.mem_append_left _ hnmem, hnid', hnbid⟩
  · subst hbeq
    simp only at hnid
    rcases List.mem_append.mp hnid with h1 | h1
    · obtain ⟨n, hnmem, hnid', hnbid⟩ := hInv b hbmem nid h1
      exact ⟨n, List.mem_append_left _ hnmem, hnid', hnbid⟩
    · have hnid1 : nid = freshId := List.mem_singleton.mp h1
      refine ⟨{ bound with id := freshId, createTime := now },
        List.mem_append_right _ (List.mem_singleton_self _), ?_, ?_⟩
      · simpa using hnid1.symm
      · simpa using hbid.symm

theorem refIntegrity_detach_delete (st : Store) (tid : ObjectId)
    (hInv : RefIntegrity st) (hbWf : st.booksWf) (hnWf : st.notesWf) :
    RefIntegrity ⟨pullNoteId st.books ((findNote st tid).getD zeroNote).bookID tid,
      (deleteFirstNote st.notes tid).1⟩ := by
  intro b' hb' nid hnid
  set bid := ((findNote st tid).getD zeroNote).bookID with hbid_def
  rcases mem_pullNoteId st.books bid tid b' hb' with hb | ⟨b, hbmem, hbid, hbeq⟩
  · obtain ⟨n, hnmem, hnid', hnbid⟩ := hInv b' hb nid hnid
    by_cases htid : n.id = tid
    · exfalso
      obtain ⟨m, hm⟩ : ∃ m, findNote st tid = some m := by
        cases hmc : findNote st tid with
        | none =>
          exfalso
          have hmc' : st.notes.find? (fun x => decide (x.id = tid)) = none := hmc
          have hno := List.find?_eq_none.mp hmc' n hnmem
          simp only [decide_eq_true_eq] at hno
          exact hno htid
        | some m => exact ⟨m, rfl⟩
      have hmmem : m ∈ st.notes := List.mem_of_find?_eq_some hm
      have hmid : m.id = tid := by simpa using List.find?_some hm
      have hnm : n = m := note_unique st.notes n m hnWf hnmem hmmem (htid.trans hmid.symm)
      have hb'id : b'.id = bid := by
        rw [hbid_def, hm]
        simp only [Option.getD_some]
        rw [← hnm, hnbid]
      have hnotmem := pullNoteId_not_mem st.books bid tid b' hbWf hb' hb'id
      exact hnotmem ((hnid'.symm.trans htid) ▸ hnid)
    · exact ⟨n, mem_deleteFirstNote_of_ne st.notes tid n hnmem htid, hnid', hnbid⟩
  · subst hbeq
    simp only [List.mem_filter, decide_eq_true_eq] at hnid
    obtain ⟨n, hnmem, hnid', hnbid⟩ := hInv b hbmem nid hnid.1
    refine ⟨n, mem_deleteFirstNote_of_ne st.notes tid n hnmem ?_, hnid', hnbid⟩
    rw [hnid']
    exact hnid.2

theorem refIntegrity_cascade (st : Store) (oid : ObjectId)
    (hInv : RefIntegrity st) (hbWf : st.booksWf) :
    RefIntegrity ⟨(deleteFirstBook st.books oid).1, deleteManyNotes st.notes oid⟩ := by
  intro b' hb' nid hnid
  have hbmem := mem_of_mem_deleteFirstBook st.books oid b' hb'
  obtain ⟨n, hnmem, hnid', hnbid⟩ := hInv b' hbmem nid hnid
  have hne : b'.id ≠ oid := deleteFirstBook_id_ne st.books oid b' hbWf hb'
  refine ⟨n, ?_, hnid', hnbid⟩
  simp only [deleteManyNotes, List.mem_filter, decide_eq_true_eq]
  exact ⟨hnmem, by rw [hnbid]; exact hne⟩

/-- C1: referential integrity of the book-note relationship. After a successful
note creation against an existing book B with a fresh note identifier, that
identifier appears exactly once in B's `notes` and the created note's `bookID`
equals B's id; and each maintenance operation (note creation, note deletion,
book deletion), when it completes successfully, preserves the invariant that
every identifier in a book's `notes` sequence references an existing note whose
`bookID` equals that book's id (no dangling references). The `deleteNote`
helper used by note deletion is modelled from the spec. -/
theorem C1_referential_integrity :
    (∀ (st : Store) (bound : Note) (freshId : ObjectId) (now : Nat),
      RefIntegrity st →
      (∀ n ∈ st.notes, n.id ≠ freshId) →
      (∃ b ∈ st.books, b.id = bound.bookID) →
      (AddNote (some bound) freshId now none none none st).2.2 =
          Except.ok (Payload.oidP freshId) ∧
      (∃ b', findBook (AddNote (some bound) freshId now none none none st).1
          bound.bookID = some b' ∧ b'.notes.count freshId = 1) ∧
      (∃ n', findNote (AddNote (some bound) freshId now none none none st).1
          freshId = some n' ∧ n'.bookID = bound.bookID ∧ n'.id = freshId)) ∧
    (∀ (st : Store) (bound : Note) (freshId : ObjectId) (now : Nat),
      RefIntegrity st →
      RefIntegrity (AddNote (some bound) freshId now none none none st).1) ∧
    (∀ (st : Store) (bound : Note), RefIntegrity st → st.booksWf → st.notesWf →
      RefIntegrity (DeleteNote (some bound) none none st).1) ∧
    (∀ (st : Store) (idStr : String), RefIntegrity st → st.booksWf →
      RefIntegrity (DeleteBook idStr none none st).1) := by
  refine ⟨?_, ?_, ?_, ?_⟩
  · intro st bound freshId now hInv hfresh hex
    have hst : (AddNote (some bound) freshId now none none none st).1 =
        ⟨pushNoteId st.books bound.bookID freshId,
         st.notes ++ [{ bound with id := freshId, createTime := now }]⟩ := rfl
    refine ⟨rfl, ?_, ?_⟩
    · obtain ⟨b, hbmem, hbid⟩ := hex
      obtain ⟨b0, hfind⟩ :
          ∃ b0, st.books.find? (fun x => decide (x.id = bound.bookID)) = some b0 := by
        have hs : (st.books.find? (fun x => decide (x.id = bound.bookID))).isSome = true :=
          List.find?_isSome.mpr ⟨b, hbmem, by simpa using hbid⟩
        exact Option.isSome_iff_exists.mp hs
      have hb0mem := List.mem_of_find?_eq_some hfind
      have hb0notes : freshId ∉ b0.notes := by
        intro hmem
        obtain ⟨n, hn, hnid, _⟩ := hInv b0 hb0mem freshId hmem
        exact hfresh n hn hnid
      refine ⟨{ b0 with notes := b0.notes ++ [freshId] }, ?_, ?_⟩
      · rw [hst]
        exact find?_pushNoteId st.books bound.bookID freshId b0 hfind
      · simp only
        rw [List.count_append, List.count_eq_zero.mpr hb0notes]
        simp
    · refine ⟨{ bound with id := freshId, createTime := now }, ?_, rfl, rfl⟩
      rw [hst]
      show (st.notes ++ [{ bound with id := freshId, createTime := now }]).find?
          (fun n : Note => decide (n.id = freshId)) = _
      rw [find?_append_left_none]
      · exact List.find?_cons_of_pos _ (by simp)
      · intro x hx
        simp only [decide_eq_true_eq]
        exact hfresh x hx
  · intro st bound freshId now hInv
    exact refIntegrity_push_insert st bound freshId now hInv
  · intro st bound hInv hbWf hnWf
    exact refIntegrity_detach_delete st bound.id hInv hbWf hnWf
  · intro st idStr hInv hbWf
    cases h : ObjectIDFromHex idStr with
    | none =>
      have hstate : (DeleteBook idStr none none st).1 = st := by
        simp [DeleteBook, h]
      rw [hstate]
      exact hInv
    | some oid =>
      have hstate : (DeleteBook idStr none none st).1 =
          ⟨(deleteFirstBook st.books oid).1, deleteManyNotes st.notes oid⟩ := by
        simp [DeleteBook, h]
      rw [hstate]
      exact refIntegrity_cascade st oid hInv hbWf

/-- A small concrete store used by the witnesses: one book (id 1) holding one
note (id 2). -/
def stW : Store := ⟨[⟨1, "t", "a", 0, 0, 0, [2], "d"⟩], [⟨2, 1, "c", 0, 0⟩]⟩

/-- Witness for C1 at the concrete store `stW`. -/
theorem C1_referential_integrity_witness :
    RefIntegrity stW ∧
    (AddNote (some ⟨0, 1, "ch1", 0, 0⟩) 3 0 none none none stW).2.2 =
        Except.ok (Payload.oidP 3) ∧
    RefIntegrity (AddNote (some ⟨0, 1, "ch1", 0, 0⟩) 3 0 none none none stW).1 ∧
    RefIntegrity (DeleteNote (some ⟨2, 0, "", 0, 0⟩) none none stW).1 ∧
    RefIntegrity (DeleteBook "000000000000000000000001" none none stW).1 :=
  ⟨by decide,
   (C1_referential_integrity.1 stW ⟨0, 1, "ch1", 0, 0⟩ 3 0 (by decide) (by decide)
      (by decide)).1,
   C1_referential_integrity.2.1 stW ⟨0, 1, "ch1", 0, 0⟩ 3 0 (by decide),
   C1_referential_integrity.2.2.1 stW ⟨2, 0, "", 0, 0⟩ (by decide) (by decide) (by decide),
   C1_referential_integrity.2.2.2 stW "000000000000000000000001" (by decide) (by decide)⟩

/-- C2 counterexample: with an empty book collection (so no book matches the
given `bookID`), note creation does NOT fail with `BookNotFound`: the `$push`
matches zero documents, the driver reports success, and the note is inserted
anyway, referencing the nonexistent book. -/
theorem C2_append_counterexample :
    (AddNote (some ⟨0, 1, "ch1", 0, 0⟩) 5 0 none none none ⟨[], []⟩).2.2 =
        Except.ok (Payload.oidP 5) ∧
    (AddNote (some ⟨0, 1, "ch1", 0, 0⟩) 5 0 none none none ⟨[], []⟩).1.notes =
        [⟨5, 1, "ch1", 0, 0⟩] := ⟨rfl, rfl⟩

/-- C2 (amended): note creation step 1 fails only when the `$push` store call
itself fails, and in that case nothing is persisted (the state is unchanged and
only the one failed update was attempted); when no book matches the given
`bookID`, the push succeeds with zero matches and the note is inserted anyway,
with no `BookNotFound` error. -/
theorem C2_append_failure (bound : Note) (freshId : ObjectId) (now : Nat)
    (st : Store) :
    (∀ e iE pE, AddNote (some bound) freshId now (some e) iE pE st =
        (st, [Access.updateBookA], Except.error (Err.store e))) ∧
    ((∀ b ∈ st.books, b.id ≠ bound.bookID) →
      (AddNote (some bound) freshId now none none none st).1 =
          ⟨st.books, st.notes ++ [{ bound with id := freshId, createTime := now }]⟩ ∧
      (AddNote (some bound) freshId now none none none st).2.2 =
          Except.ok (Payload.oidP freshId)) := by
  refine ⟨fun e iE pE => rfl, fun hno => ⟨?_, rfl⟩⟩
  have hpush : pushNoteId st.books bound.bookID freshId = st.books :=
    pushNoteId_of_no_match st.books bound.bookID freshId hno
  show (⟨pushNoteId st.books bound.bookID freshId,
      st.notes ++ [{ bound with id := freshId, createTime := now }]⟩ : Store) = _
  rw [hpush]

/-- Witness for C2's amended theorem at a concrete input. -/
theorem C2_append_failure_witness :
    AddNote (some ⟨0, 9, "x", 0, 0⟩) 5 0 (some 7) none none stW =
        (stW, [Access.updateBookA], Except.error (Err.store 7)) ∧
    (AddNote (some ⟨0, 9, "x", 0, 0⟩) 5 0 none none none stW).2.2 =
        Except.ok (Payload.oidP 5) :=
  ⟨(C2_append_failure ⟨0, 9, "x", 0, 0⟩ 5 0 stW).1 7 none none,
   ((C2_append_failure ⟨0, 9, "x", 0, 0⟩ 5 0 stW).2 (by decide)).2⟩

/-- C3: note-creation compensation. When the insert (step 2) fails after the
append (step 1) succeeded, the caller is always given the original insert
error, whatever the compensation outcome; a successful compensation restores
the pre-creation state exactly (given the fresh id was in no book's `notes`),
and a failed compensation leaves the appended (dangling) state — it is only
logged, changing nothing else. The `deleteNote` helper performing the
compensation is modelled from the spec. -/
theorem C3_compensation (bound : Note) (freshId : ObjectId) (now : Nat)
    (e : StoreErr) (st : Store) :
    (∀ pE, (AddNote (some bound) freshId now none (some e) pE st).2.2 =
        Except.error (Err.store e)) ∧
    ((∀ b ∈ st.books, freshId ∉ b.notes) →
      (AddNote (some bound) freshId now none (some e) none st).1 = st) ∧
    (∀ e2, (AddNote (some bound) freshId now none (some e) (some e2) st).1 =
        ⟨pushNoteId st.books bound.bookID freshId, st.notes⟩) := by
  refine ⟨?_, ?_, fun e2 => rfl⟩
  · intro pE
    cases pE <;> rfl
  · intro hfresh
    have hcancel : pullNoteId (pushNoteId st.books bound.bookID freshId)
        bound.bookID freshId = st.books :=
      pull_push_cancel st.books bound.bookID freshId hfresh
    show (⟨pullNoteId (pushNoteId st.books bound.bookID freshId) bound.bookID freshId,
        st.notes⟩ : Store) = st
    rw [hcancel]

/-- Witness for C3 at a concrete input. -/
theorem C3_compensation_witness :
    (AddNote (some ⟨0, 1, "x", 0, 0⟩) 5 0 none (some 7) none stW).2.2 =
        Except.error (Err.store 7) ∧
    (AddNote (some ⟨0, 1, "x", 0, 0⟩) 5 0 none (some 7) none stW).1 = stW :=
  ⟨(C3_compensation ⟨0, 1, "x", 0, 0⟩ 5 0 7 stW).1 none,
   (C3_compensation ⟨0, 1, "x", 0, 0⟩ 5 0 7 stW).2.1 (by decide)⟩

/-- C4: detach-before-delete ordering on note deletion. If the detach step
fails, the whole operation fails with the detach error and the state — in
particular every note document — is unchanged; and the note collection is only
ever modified on the path where both the detach and the delete calls succeeded.
The `deleteNote` helper performing the detach is modelled from the spec. -/
theorem C4_detach_before_delete (bindRes : Option Note)
    (pullE delE : Option StoreErr) (st : Store) :
    (∀ e, pullE = some e →
      DeleteNote bindRes pullE delE st =
        (st, [Access.findNoteA, Access.updateBookA], Except.error Err.detachFailed)) ∧
    ((DeleteNote bindRes pullE delE st).1.notes ≠ st.notes →
      pullE = none ∧ delE = none) ∧
    (∀ c, (DeleteNote bindRes pullE delE st).2.2 = Except.ok c → pullE = none) := by
  refine ⟨?_, ?_, ?_⟩
  · intro e he
    subst he
    rfl
  · intro hch
    cases pullE with
    | some e => exact absurd rfl hch
    | none =>
      cases delE with
      | some e => exact absurd rfl hch
      | none => exact ⟨rfl, rfl⟩
  · intro c hc
    cases pullE with
    | some e => exact absurd hc (by simp [DeleteNote, deleteNote])
    | none => rfl

/-- Witness for C4 at a concrete input: a failing detach call. -/
theorem C4_detach_before_delete_witness :
    DeleteNote (some ⟨2, 0, "", 0, 0⟩) (some 3) none stW =
        (stW, [Access.findNoteA, Access.updateBookA], Except.error Err.detachFailed) ∧
    ((none : Option StoreErr) = none ∧ (none : Option StoreErr) = none) ∧
    (none : Option StoreErr) = none :=
  ⟨(C4_detach_before_delete (some ⟨2, 0, "", 0, 0⟩) (some 3) none stW).1 3 rfl,
   (C4_detach_before_delete (some ⟨2, 0, "", 0, 0⟩) none none stW).2.1 (by decide),
   (C4_detach_before_delete (some ⟨2, 0, "", 0, 0⟩) none none stW).2.2
     (Payload.count 1) rfl⟩

/-- C5 counterexample: deleting a note whose identifier matches no note
document does NOT fail with `NotFound`: the handler decodes the zero note,
runs the detach against the nil book id, performs the (vacuous) delete and
reports success with count 0 — and it attempts mutations (the `$pull` and the
`DeleteOne`) rather than failing before any mutation. -/
theorem C5_locate_counterexample :
    (DeleteNote (some ⟨9, 0, "", 0, 0⟩) none none ⟨[], []⟩).2.2 =
        Except.ok (Payload.count 0) ∧
    (DeleteNote (some ⟨9, 0, "", 0, 0⟩) none none ⟨[], []⟩).2.1 =
        [Access.findNoteA, Access.updateBookA, Access.deleteNoteA] := ⟨rfl, rfl⟩

/-- C5 (amended): when the given note identifier matches no note document,
note deletion is not rejected: the locate step decodes the zero-valued note,
so the detach runs against the nil book identifier, the note collection is
left unchanged, and the operation reports success with a deleted count of 0
(no `NotFound` error). The `deleteNote` helper is modelled from the spec. -/
theorem C5_locate_unknown (bound : Note) (st : Store)
    (h : ∀ n ∈ st.notes, n.id ≠ bound.id) :
    (DeleteNote (some bound) none none st).2.2 = Except.ok (Payload.count 0) ∧
    (DeleteNote (some bound) none none st).1.notes = st.notes ∧
    (DeleteNote (some bound) none none st).1.books =
        pullNoteId st.books nilObjectID bound.id := by
  have hfind : findNote st bound.id = none :=
    List.find?_eq_none.mpr (fun x hx => by simpa using h x hx)
  have hdel : deleteFirstNote st.notes bound.id = (st.notes, 0) :=
    deleteFirstNote_of_no_match st.notes bound.id h
  refine ⟨?_, ?_, ?_⟩ <;>
    simp [DeleteNote, deleteNote, hfind, hdel, zeroNote, nilObjectID]

/-- Witness for C5's amended theorem at a concrete input. -/
theorem C5_locate_unknown_witness :
    (DeleteNote (some ⟨9, 0, "", 0, 0⟩) none none stW).2.2 =
        Except.ok (Payload.count 0) ∧
    (DeleteNote (some ⟨9, 0, "", 0, 0⟩) none none stW).1.notes = stW.notes ∧
    (DeleteNote (some ⟨9, 0, "", 0, 0⟩) none none stW).1.books =
        pullNoteId stW.books nilObjectID 9 :=
  C5_locate_unknown ⟨9, 0, "", 0, 0⟩ stW (by decide)

/-- C6 counterexample: the delete-note operation receives its identifier as a
body field; a malformed identifier there makes the JSON binding fail, which is
silently ignored — the operation then proceeds with the zero identifier,
accessing the store (the note lookup, the `$pull` and the `DeleteOne` all run)
and reporting success instead of failing with `InvalidFormat` before any store
access. -/
theorem C6_validation_counterexample :
    (DeleteNote none none none ⟨[], []⟩).2.1 ≠ [] ∧
    (DeleteNote none none none ⟨[], []⟩).2.2 = Except.ok (Payload.count 0) :=
  ⟨by decide, rfl⟩

/-- C6 (amended): identifier validation precedes store access on the paths
that decode an identifier string — the path-parameter operations (get book,
get note), the query-parameter operation (list notes by book), the
form-parameter operation (delete book) and the field-map `id` of the two edit
operations: a malformed identifier yields the invalid-id error with no store
access and no state change. The body-bound identifiers of create-note and
delete-note are not validated (see the counterexample). -/
theorem C6_validation_before_store :
    (∀ s st, ObjectIDFromHex s = none →
      GetBook s st = ([], Except.error Err.invalidId) ∧
      GetNote s st = ([], Except.error Err.invalidId) ∧
      ListNoteByBook s st = ([], Except.error Err.invalidId) ∧
      (∀ e1 e2, DeleteBook s e1 e2 st = (st, [], Except.error Err.invalidId))) ∧
    (∀ fields updE books notes, strIdToPrimitive (mapGet fields "id") = none →
      EditBook (some fields) updE books = (books, [], Except.error Err.invalidId) ∧
      EditNote (some fields) updE notes = (notes, [], Except.error Err.invalidId)) := by
  constructor
  · intro s st h
    refine ⟨?_, ?_, ?_, ?_⟩ <;>
      simp [GetBook, GetNote, ListNoteByBook, DeleteBook, h]
  · intro fields updE books notes h
    constructor <;> simp [EditBook, EditNote, h]

/-- Witness for C6's amended theorem at concrete malformed inputs. -/
theorem C6_validation_before_store_witness :
    GetBook "zzz" stW = ([], Except.error Err.invalidId) ∧
    EditBook (some [("id", GoVal.str "zzz")]) none [] =
        ([], [], Except.error Err.invalidId) :=
  ⟨(C6_validation_before_store.1 "zzz" stW (by rfl)).1,
   (C6_validation_before_store.2 [("id", GoVal.str "zzz")] none [] [] (by rfl)).1⟩

/-- C7: partial update excludes empty-valued fields. For an edit payload with
pairwise-distinct keys, every non-`id` field bound to the empty-string marker
is left unchanged on the stored document, every non-`id` field bound to a
non-empty value is set to exactly that value, and both edit handlers store
exactly this translated update on the first matching document. -/
theorem C7_partial_update (fields : Doc) (oid : ObjectId)
    (hnd : (fields.map Prod.fst).Nodup) :
    (∀ (d : Doc) (k : String), k ≠ "id" → (k, GoVal.str "") ∈ fields →
      mapGet (applySet d (translateUpdate fields oid)) k = mapGet d k) ∧
    (∀ (d : Doc) (k : String) (v : GoVal), k ≠ "id" → v ≠ GoVal.str "" →
      (k, v) ∈ fields →
      mapGet (applySet d (translateUpdate fields oid)) k = v) ∧
    (∀ (d : Doc) (rest : List Doc),
      strIdToPrimitive (mapGet fields "id") = some oid →
      mapGet d "id" = GoVal.oid oid →
      (EditBook (some fields) none (d :: rest)).1 =
          applySet d (translateUpdate fields oid) :: rest ∧
      (EditNote (some fields) none (d :: rest)).1 =
          applySet d (translateUpdate fields oid) :: rest) := by
  refine ⟨?_, ?_, ?_⟩
  · intro d k hkid hmem
    apply applySet_get_of_not_mem_keys
    intro hk
    obtain ⟨kv, hkv, hfst⟩ := List.mem_map.mp hk
    obtain ⟨k1, v1⟩ := kv
    simp only at hfst
    subst hfst
    have hflt := List.mem_filter.mp hkv
    have hmem1 : (k1, v1) ∈ fields :=
      mem_of_mem_mapSet_ne fields "id" k1 (GoVal.oid oid) v1 hflt.1 hkid
    have hval : GoVal.str "" = v1 :=
      nodup_keys_unique_val fields k1 (GoVal.str "") v1 hnd hmem hmem1
    have hne := of_decide_eq_true hflt.2
    exact hne hval.symm
  · intro d k v hkid hv hmem
    apply applySet_get_of_mem
    · have h1 : ((mapSet fields "id" (GoVal.oid oid)).map Prod.fst).Nodup :=
        nodupKeys_mapSet fields "id" (GoVal.oid oid) hnd
      have h2 : (translateUpdate fields oid).Sublist
          (mapSet fields "id" (GoVal.oid oid)) := List.filter_sublist _
      exact List.Nodup.sublist (List.Sublist.map Prod.fst h2) h1
    · apply List.mem_filter.mpr
      exact ⟨mem_mapSet_of_ne fields "id" k (GoVal.oid oid) v hmem hkid,
        by simpa using hv⟩
  · intro d rest hdec hmatch
    constructor <;>
      simp [EditBook, EditNote, hdec, findOneAndUpdateDoc, updateOneDoc, hmatch,
        translateUpdate]

/-- A concrete edit payload: a valid id, a non-empty `title`, an empty
`author`. -/
def fieldsW : Doc :=
  [("id", GoVal.str "0000000000000000000000ab"), ("title", GoVal.str "new"),
   ("author", GoVal.str "")]

/-- A concrete stored document matching `fieldsW`'s decoded id (171). -/
def dW : Doc :=
  [("id", GoVal.oid 171), ("title", GoVal.str "old"), ("author", GoVal.str "A")]

/-- Witness for C7 at the concrete payload `fieldsW` and document `dW`. -/
theorem C7_partial_update_witness :
    mapGet (applySet dW (translateUpdate fieldsW 171)) "author" = mapGet dW "author" ∧
    mapGet (applySet dW (translateUpdate fieldsW 171)) "title" = GoVal.str "new" ∧
    (EditBook (some fieldsW) none [dW]).1 = [applySet dW (translateUpdate fieldsW 171)] :=
  ⟨(C7_partial_update fieldsW 171 (by decide)).1 dW "author" (by decide) (by decide),
   (C7_partial_update fieldsW 171 (by decide)).2.1 dW "title" (GoVal.str "new")
     (by decide) (by decide) (by decide),
   ((C7_partial_update fieldsW 171 (by decide)).2.2 dW [] (by rfl) (by rfl)).1⟩

/-- C8 counterexample: an edit-note whose decoded identifier matches no note
document reports success with modification count 0 — not `NotFound`; and an
edit-book returns the document as it was BEFORE the update (the driver
default, acknowledged by the handler's own TODO comments), while the store
holds the updated document. -/
theorem C8_result_counterexample :
    (EditNote (some [("id", GoVal.str "0000000000000000000000ab")]) none []).2.2 =
        Except.ok (Payload.count 0) ∧
    (EditBook (some [("id", GoVal.str "0000000000000000000000ab"),
        ("title", GoVal.str "new")]) none
        [[("id", GoVal.oid 171), ("title", GoVal.str "old")]]).2.2 =
        Except.ok (Payload.docP [("id", GoVal.oid 171), ("title", GoVal.str "old")]) ∧
    (EditBook (some [("id", GoVal.str "0000000000000000000000ab"),
        ("title", GoVal.str "new")]) none
        [[("id", GoVal.oid 171), ("title", GoVal.str "old")]]).1 =
        [[("id", GoVal.oid 171), ("title", GoVal.str "new")]] := ⟨rfl, rfl, rfl⟩

/-- C8 (amended): partial-update result contract. Edit book reports `noMatch`
when no document matches the decoded identifier, and otherwise applies the
update to exactly the first matching document, returning the matched
(pre-update) document; edit note applies the update to exactly the first
matching document and returns the modification count, reporting success with
count 0 — not `NotFound` — when no document matches. -/
theorem C8_result_contract (fields : Doc) (oid : ObjectId)
    (hdec : strIdToPrimitive (mapGet fields "id") = some oid) :
    (∀ docs : List Doc, (∀ d ∈ docs, mapGet d "id" ≠ GoVal.oid oid) →
      EditBook (some fields) none docs =
          (docs, [Access.findOneAndUpdateA], Except.error Err.noMatch) ∧
      EditNote (some fields) none docs =
          (docs, [Access.updateNoteA], Except.ok (Payload.count 0))) ∧
    (∀ (d : Doc) (rest : List Doc), mapGet d "id" = GoVal.oid oid →
      EditBook (some fields) none (d :: rest) =
          (applySet d (translateUpdate fields oid) :: rest,
           [Access.findOneAndUpdateA], Except.ok (Payload.docP d)) ∧
      EditNote (some fields) none (d :: rest) =
          (applySet d (translateUpdate fields oid) :: rest, [Access.updateNoteA],
           Except.ok (Payload.count
             (if applySet d (translateUpdate fields oid) = d then 0 else 1)))) := by
  constructor
  · intro docs hno
    have h1 : findOneAndUpdateDoc docs oid
        (buildUpdateFields (mapSet fields "id" (GoVal.oid oid))) = (docs, none) :=
      findOneAndUpdateDoc_of_no_match docs oid _ hno
    have h2 : updateOneDoc docs oid
        (buildUpdateFields (mapSet fields "id" (GoVal.oid oid))) = (docs, 0) :=
      updateOneDoc_of_no_match docs oid _ hno
    constructor <;> simp [EditBook, EditNote, hdec, translateUpdate, h1, h2]
  · intro d rest hmatch
    constructor <;>
      simp [EditBook, EditNote, hdec, findOneAndUpdateDoc, updateOneDoc, hmatch,
        translateUpdate]

/-- Witness for C8's amended theorem at concrete inputs. -/
theorem C8_result_contract_witness :
    (EditBook (some fieldsW) none [] =
        ([], [Access.findOneAndUpdateA], Except.error Err.noMatch) ∧
      EditNote (some fieldsW) none [] =
        ([], [Access.updateNoteA], Except.ok (Payload.count 0))) ∧
    (EditBook (some fieldsW) none [dW] =
        (applySet dW (translateUpdate fieldsW 171) :: [],
         [Access.findOneAndUpdateA], Except.ok (Payload.docP dW)) ∧
      EditNote (some fieldsW) none [dW] =
        (applySet dW (translateUpdate fieldsW 171) :: [], [Access.updateNoteA],
         Except.ok (Payload.count
           (if applySet dW (translateUpdate fieldsW 171) = dW then 0 else 1)))) :=
  ⟨(C8_result_contract fieldsW 171 (by rfl)).1 [] (by decide),
   (C8_result_contract fieldsW 171 (by rfl)).2 dW [] (by rfl)⟩

/-- C9: cascade on book deletion. With a valid identifier string and no driver
failures, deleting a book first bulk-deletes every note whose `bookID` equals
the decoded identifier and then deletes the book document: afterwards no note
referencing that book remains, every note that was listed in the book's
`notes` sequence is gone from the note store, the book itself is gone, and the
success response carries the count of deleted books. -/
theorem C9_cascade_delete (idStr : String) (oid : ObjectId) (st : Store)
    (hdec : ObjectIDFromHex idStr = some oid)
    (hInv : RefIntegrity st) (hnWf : st.notesWf) (hbWf : st.booksWf) :
    (∀ n ∈ (DeleteBook idStr none none st).1.notes, n.bookID ≠ oid) ∧
    (∀ B ∈ st.books, B.id = oid → ∀ nid ∈ B.notes,
      findNote (DeleteBook idStr none none st).1 nid = none) ∧
    (DeleteBook idStr none none st).2.2 =
      Except.ok (Payload.count
        (if st.books.any (fun b => decide (b.id = oid)) then 1 else 0)) ∧
    findBook (DeleteBook idStr none none st).1 oid = none := by
  have hstate : (DeleteBook idStr none none st).1 =
      ⟨(deleteFirstBook st.books oid).1, deleteManyNotes st.notes oid⟩ := by
    simp [DeleteBook, hdec]
  refine ⟨?_, ?_, ?_, ?_⟩
  · rw [hstate]
    intro n hn
    simp only [deleteManyNotes, List.mem_filter, decide_eq_true_eq] at hn
    exact hn.2
  · intro B hB hBid nid hnid
    rw [hstate]
    simp only [findNote]
    apply List.find?_eq_none.mpr
    intro m hm
    simp only [deleteManyNotes, List.mem_filter, decide_eq_true_eq] at hm
    simp only [decide_eq_true_eq]
    intro hmid
    obtain ⟨n, hnmem, hnid', hnbid⟩ := hInv B hB nid hnid
    have hmn : m = n :=
      note_unique st.notes m n hnWf hm.1 hnmem (hmid.trans hnid'.symm)
    apply hm.2
    rw [hmn, hnbid, hBid]
  · have hresp : (DeleteBook idStr none none st).2.2 =
        Except.ok (Payload.count (deleteFirstBook st.books oid).2) := by
      simp [DeleteBook, hdec]
    rw [deleteFirstBook_count] at hresp
    exact hresp
  · rw [hstate]
    simp only [findBook]
    apply List.find?_eq_none.mpr
    intro b hb
    simp only [decide_eq_true_eq]
    exact deleteFirstBook_id_ne st.books oid b hbWf hb

/-- Witness for C9 at the concrete store `stW`. -/
theorem C9_cascade_delete_witness :
    (∀ n ∈ (DeleteBook "000000000000000000000001" none none stW).1.notes,
      n.bookID ≠ 1) ∧
    (∀ B ∈ stW.books, B.id = 1 → ∀ nid ∈ B.notes,
      findNote (DeleteBook "000000000000000000000001" none none stW).1 nid = none) ∧
    (DeleteBook "000000000000000000000001" none none stW).2.2 =
      Except.ok (Payload.count
        (if stW.books.any (fun b => decide (b.id = 1)) then 1 else 0)) ∧
    findBook (DeleteBook "000000000000000000000001" none none stW).1 1 = none :=
  C9_cascade_delete "000000000000000000000001" 1 stW (by rfl) (by decide)
    (by decide) (by decide)

/-- C10: request-body binding errors are silently discarded on every
body-binding operation — create book, create note, delete note, edit book and
edit note behave on a failed binding exactly as on a successfully bound
zero-valued entity (or empty field map); in particular, deleting a note with
an unparseable body proceeds to access the store using the all-zero
identifier rather than rejecting the request. -/
theorem C10_bind_errors_discarded :
    (∀ freshId insE st, AddBook none freshId insE st =
        AddBook (some zeroBook) freshId insE st) ∧
    (∀ freshId now e1 e2 e3 st, AddNote none freshId now e1 e2 e3 st =
        AddNote (some zeroNote) freshId now e1 e2 e3 st) ∧
    (∀ e1 e2 st, DeleteNote none e1 e2 st = DeleteNote (some zeroNote) e1 e2 st) ∧
    (∀ updE books, EditBook none updE books = EditBook (some []) updE books) ∧
    (∀ updE notes, EditNote none updE notes = EditNote (some []) updE notes) ∧
    (∀ e1 e2 st, (DeleteNote none e1 e2 st).2.1 ≠ []) := by
  refine ⟨fun _ _ _ => rfl, fun _ _ _ _ _ _ => rfl, fun _ _ _ => rfl,
    fun _ _ => rfl, fun _ _ => rfl, ?_⟩
  intro e1 e2 st
  cases e1 with
  | some e => intro h; exact List.noConfusion h
  | none =>
    cases e2 with
    | some e => intro h; exact List.noConfusion h
    | none => intro h; exact List.noConfusion h
